import Mathlib

/-!
Verification development for the SADUC directory-access layer
(`src/saduc/src/samba_backend.py`, `ad_list_model.py`, `ad_tree_model.py`,
`main.py`).  The Python code is shallowly embedded: LDAP entries become
explicit attribute records, the LDAP connection becomes a stub directory
plus a query log that each search threads through, and each backend
function becomes a computable Lean function translated clause by clause
from the Python source.
-/

namespace Saduc

/-- Model of Python `str.lower()` restricted to what the code compares
(ASCII attribute values and DNs): lowercase every character. -/
def str_lower (s : String) : String := ⟨s.data.map Char.toLower⟩

/-- Lexicographic comparison of code-point lists, the order Python uses
when comparing strings with `<=` (used by `list.sort(key=...)`). -/
def codes_le : List Nat → List Nat → Bool
  | [], _ => true
  | _ :: _, [] => false
  | a :: as, b :: bs => a < b || (a == b && codes_le as bs)

/-- Model of Python string comparison `a <= b` (code-point lexicographic). -/
def str_le (a b : String) : Bool :=
  codes_le (a.data.map Char.toNat) (b.data.map Char.toNat)

/-- Model of Python `int(s)` for the non-negative decimal strings the
directory stores in `userAccountControl`: `none` when `s` is empty or has a
non-digit (where `int` would raise), otherwise the decimal value. -/
def parse_digits : List Char → Nat → Option Nat
  | [], acc => some acc
  | c :: cs, acc =>
    if c.isDigit then parse_digits cs (acc * 10 + (c.toNat - '0'.toNat)) else none

/-- Parse a decimal string, `none` on the empty string or a non-digit. -/
def parse_nat (s : String) : Option Nat :=
  if s.data.isEmpty then none else parse_digits s.data 0

/-- A decoded LDAP entry, modelling the attribute dict handed back by
`python-ldap`.  Each `Option String` field models `entry.get(attr)` after
UTF-8 decoding: `none` when the attribute is absent or its value list is
empty (both falsy in the Python code), `some v` for the first value.
`objectClass` is the full decoded value list. -/
structure Entry where
  objectClass : List String := []
  showInAdvancedViewOnly : Option String := none
  cn : Option String := none
  ou : Option String := none
  dc : Option String := none
  displayName : Option String := none
  description : Option String := none
  userAccountControl : Option String := none
deriving Repr, DecidableEq

/-- One element of an LDAP result list: the child DN paired with its
attribute dict; `none` stands for a non-dict payload (e.g. a referral),
which the code skips via `isinstance(entry, dict)`. -/
abbrev SearchEntry := String × Option Entry

/-- One server reply inside the `get_paged_results` loop: either a page of
results together with whether a further paging cookie was returned, or an
`ldap.LDAPError` raised by `search_ext`/`result3`. -/
inductive PageResponse where
  | page (rdata : List SearchEntry) (cookie : Bool)
  | ldapError
deriving Repr, DecidableEq

/-- The `while True` loop of `samba_backend.get_paged_results`, with the
server's successive replies given as a list.  Each iteration extends
`all_results` with the page; the loop breaks when no paging cookie
remains, and on `ldap.LDAPError` the accumulated results are returned
(lines 140-142 of `samba_backend.py`). -/
def get_paged_results_loop : List PageResponse → List SearchEntry → List SearchEntry
  | [], acc => acc
  | .ldapError :: _, acc => acc
  | .page rdata cookie :: rest, acc =>
    if cookie then get_paged_results_loop rest (acc ++ rdata) else acc ++ rdata

/-- `samba_backend.get_paged_results`: run the paging loop starting from an
empty accumulator. -/
def get_paged_results (responses : List PageResponse) : List SearchEntry :=
  get_paged_results_loop responses []

/-- A stub directory serving the given pages in order: every page but the
last comes back with a further paging cookie. -/
def stub_responses : List (List SearchEntry) → List PageResponse
  | [] => []
  | [p] => [.page p false]
  | p :: q :: rest => .page p true :: stub_responses (q :: rest)

/-- `TREE_BRANCH_CLASSES` from `samba_backend.py` (lines 41-60). -/
def TREE_BRANCH_CLASSES : List String :=
  ["organizationalUnit", "container", "builtinDomain", "domainDns", "dnsZone",
   "msDS-PasswordSettingsContainer", "fileLinkTracking", "linkTrackObjectMoveTable",
   "linkTrackVolumeTable", "msDFSR-GlobalSettings", "msDFSR-ReplicationGroup",
   "msDFSR-Topology", "msDFSR-Content", "groupPolicyContainer", "nTFRSSettings",
   "dfsConfiguration", "classStore", "domainPolicy"]

/-- `NON_EXPANDABLE_CONTAINERS` from `samba_backend.py` (lines 65-70),
stored lowercase for case-insensitive comparison. -/
def NON_EXPANDABLE_CONTAINERS : List String :=
  ["cn=users,dc=home,dc=lucasit,dc=com",
   "cn=computers,dc=home,dc=lucasit,dc=com",
   "cn=builtin,dc=home,dc=lucasit,dc=com",
   "cn=foreignsecurityprincipals,dc=home,dc=lucasit,dc=com"]

/-- `samba_backend._is_tree_branch`: `none` models a non-dict entry (the
`isinstance` guard); an empty `objectClass` is falsy and yields `False`;
in non-advanced view an entry whose first `showInAdvancedViewOnly` value
lowercases to "true" is hidden; otherwise the entry is a branch exactly
when its class set meets `TREE_BRANCH_CLASSES`. -/
def is_tree_branch (entry : Option Entry) (advanced_view : Bool) : Bool :=
  match entry with
  | none => false
  | some e =>
    if e.objectClass.isEmpty then false
    else if !advanced_view &&
        (match e.showInAdvancedViewOnly with
         | some s => str_lower s == "true"
         | none => false) then false
    else e.objectClass.any (fun oc => TREE_BRANCH_CLASSES.contains oc)

/-- Result of a one-shot `search_s` against a DN. -/
inductive SearchOutcome where
  | ok (res : List SearchEntry)
  | noSuchObject
  | ldapError
deriving Repr, DecidableEq

/-- A stub directory: per-DN reply streams for paged one-level searches,
per-DN outcomes for one-shot `search_s` searches (a DN not in the table
behaves like `ldap.NO_SUCH_OBJECT`), and the forest-root `(name, dn)`
served by the RootDSE query. -/
structure Directory where
  paged : List (String × List PageResponse) := []
  single : List (String × SearchOutcome) := []
  rootInfo : Option (String × String) := none
deriving Repr, DecidableEq

/-- The LDAP connection handle: the directory it talks to, plus a log of
the DNs queried so far (a query counter for the stub). -/
structure LdapConn where
  dir : Directory
  log : List String := []
deriving Repr, DecidableEq

/-- A one-shot `conn.search_s(dn, SCOPE_ONELEVEL, ...)`: look the DN up in
the stub and record the query. -/
def search_s (c : LdapConn) (dn : String) : SearchOutcome × LdapConn :=
  ((c.dir.single.lookup dn).getD .noSuchObject, { c with log := c.log ++ [dn] })

/-- A paged search against the stub: run `get_paged_results` on the DN's
reply stream and record the query. -/
def paged_search (c : LdapConn) (dn : String) : List SearchEntry × LdapConn :=
  (get_paged_results ((c.dir.paged.lookup dn).getD []), { c with log := c.log ++ [dn] })

/-- `samba_backend.has_expandable_children` (lines 221-246): in non-advanced
view a DN in `NON_EXPANDABLE_CONTAINERS` (case-insensitively) is answered
`False` before any query; otherwise one `search_s` is issued and the
children are scanned for a tree branch.  `NO_SUCH_OBJECT` and other LDAP
errors both yield `False`. -/
def has_expandable_children (c : LdapConn) (dn : String) (advanced_view : Bool) :
    Bool × LdapConn :=
  if !advanced_view && NON_EXPANDABLE_CONTAINERS.contains (str_lower dn) then (false, c)
  else
    let sr := search_s c dn
    (match sr.1 with
     | .ok res => res.any (fun r => is_tree_branch r.2 advanced_view)
     | .noSuchObject => false
     | .ldapError => false,
     sr.2)

/-- The dict appended per child in `get_expandable_children`. -/
structure TreeChild where
  name : String
  dn : String
  objectClass : List String
  has_sub_containers : Bool
deriving Repr, DecidableEq

/-- The `for child_dn, entry in res` loop of
`samba_backend.get_expandable_children` (lines 195-211): skip non-dict
entries, take the RDN name from `ou` / `dc` / `cn`, and for every named
tree branch probe `has_expandable_children` (threading the query log)
before appending the child dict. -/
def expandable_children_loop (advanced_view : Bool) :
    LdapConn → List SearchEntry → List TreeChild × LdapConn
  | c, [] => ([], c)
  | c, (child_dn, entry) :: rest =>
    match entry with
    | none => expandable_children_loop advanced_view c rest
    | some e =>
      match e.ou <|> e.dc <|> e.cn with
      | none => expandable_children_loop advanced_view c rest
      | some nm =>
        if is_tree_branch (some e) advanced_view then
          let hs := has_expandable_children c child_dn advanced_view
          let tail := expandable_children_loop advanced_view hs.2 rest
          ({ name := nm, dn := child_dn, objectClass := e.objectClass,
             has_sub_containers := hs.1 } :: tail.1, tail.2)
        else expandable_children_loop advanced_view c rest

/-- `samba_backend.get_expandable_children` (lines 184-218).  The outer
`except` clauses never fire in the paged path because `get_paged_results`
already swallows `ldap.LDAPError`, returning the partial page list. -/
def get_expandable_children (c : LdapConn) (dn : String) (advanced_view : Bool) :
    List TreeChild × LdapConn :=
  let res := paged_search c dn
  expandable_children_loop advanced_view res.2 res.1

/-- The dict built per child in `get_all_objects_in_dn` (lines 262-276):
`none` when the entry is not a dict or carries none of `displayName`,
`ou`, `dc`, `cn` (the `if name_attr` guard). -/
structure ListedObject where
  name : String
  dn : String
  objectClass : List String
  description : Option String := none
  userAccountControl : Option String := none
deriving Repr, DecidableEq

/-- Build the list-pane dict for one search result, or `none` when the
child is skipped. -/
def mk_listed_object (child_dn : String) (entry : Option Entry) : Option ListedObject :=
  match entry with
  | none => none
  | some e =>
    match e.displayName <|> e.ou <|> e.dc <|> e.cn with
    | none => none
    | some nm =>
      some { name := nm, dn := child_dn, objectClass := e.objectClass,
             description := e.description, userAccountControl := e.userAccountControl }

/-- `samba_backend.get_all_objects_in_dn` (lines 249-284): one paged
one-level search, then keep every dict child that has a naming attribute. -/
def get_all_objects_in_dn (c : LdapConn) (dn : String) : List ListedObject × LdapConn :=
  let res := paged_search c dn
  (res.1.filterMap (fun r => mk_listed_object r.1 r.2), res.2)

/-- `UAC_ACCOUNT_DISABLED` from `ad_list_model.py` (line 21). -/
def UAC_ACCOUNT_DISABLED : Nat := 2

/-- The value of `int(item.get('userAccountControl', '0'))` in
`_get_object_type` for the decimal strings the backend stores (a
non-decimal string would make `int` raise, which no claim exercises). -/
def uac_value (item : ListedObject) : Nat :=
  (parse_nat (item.userAccountControl.getD "0")).getD 0

/-- `ADListModel._get_object_type` (`ad_list_model.py` lines 72-101):
first-match classification over the row's `objectClass` list, with the
`user` case split on the account-disabled bit, and a fallback to the last
class label. -/
def get_object_type (item : ListedObject) : String :=
  let object_classes := item.objectClass
  if object_classes.isEmpty then "Unknown"
  else if "groupPolicyContainer" ∈ object_classes then "Group Policy Object"
  else if "group" ∈ object_classes then "Security Group"
  else if "computer" ∈ object_classes then "Computer"
  else if "user" ∈ object_classes then
    if uac_value item &&& UAC_ACCOUNT_DISABLED ≠ 0 then "Disabled User" else "User"
  else if "organizationalUnit" ∈ object_classes then "Organizational Unit"
  else if "container" ∈ object_classes then "Container"
  else object_classes.getLastD "Unknown"

/-- The per-column sort key of `ADListModel.sort` (lines 138-143):
the lower-cased name, derived kind, or description. -/
def sort_key (column : Nat) (item : ListedObject) : String :=
  match column with
  | 0 => str_lower item.name
  | 1 => str_lower (get_object_type item)
  | _ => str_lower (item.description.getD "")

/-- The comparison `ADListModel.sort` sorts by: ascending on the column
key, or descending when `reverse=True`.  Python `list.sort` is a stable
sort, so ties keep their original relative order in both directions. -/
def list_sort_le (column : Nat) (descending : Bool) (a b : ListedObject) : Prop :=
  if descending then str_le (sort_key column b) (sort_key column a) = true
  else str_le (sort_key column a) (sort_key column b) = true

instance (column : Nat) (descending : Bool) : DecidableRel (list_sort_le column descending) :=
  fun a b => by unfold list_sort_le; split <;> infer_instance

/-- `ADListModel.sort` (lines 131-151): columns 0-2 stable-sort the rows in
place on the column key; any other column index leaves the rows unchanged
(the early `return` after `endResetModel`). -/
def sort_rows (data : List ListedObject) (column : Nat) (descending : Bool) :
    List ListedObject :=
  if column ≤ 2 then data.insertionSort (list_sort_le column descending) else data

/-- `ADListModel.setData` (lines 153-160): replace the rows with the
backend's list as is (`None` clears the model); no sort is applied. -/
def set_data_rows (data : Option (List ListedObject)) : List ListedObject :=
  data.getD []

/-- `ADTreeItem` from `ad_tree_model.py` (lines 22-77): display data, DN,
object classes, the owned child list, the `_children_fetched` flag and the
tri-state `_has_sub_containers` flag (`none` = not yet resolved). -/
inductive ADTreeItem where
  | mk (item_data : Option String) (dn : String) (object_class : List String)
       (children : List ADTreeItem) (children_fetched : Bool)
       (has_sub_containers : Option Bool)
deriving Repr

/-- The `_children` list of a tree item. -/
def ADTreeItem.children : ADTreeItem → List ADTreeItem
  | .mk _ _ _ cs _ _ => cs

/-- The `_children_fetched` flag of a tree item. -/
def ADTreeItem.children_fetched : ADTreeItem → Bool
  | .mk _ _ _ _ f _ => f

/-- The `_has_sub_containers` flag of a tree item. -/
def ADTreeItem.has_sub_containers : ADTreeItem → Option Bool
  | .mk _ _ _ _ _ h => h

/-- The DN of a tree item. -/
def ADTreeItem.dn : ADTreeItem → String
  | .mk _ d _ _ _ _ => d

/-- `has_expandable_children` as the tree model calls it on `samba_conn`
(only the boolean answer matters to the model). -/
def backend_has_children (d : Directory) (dn : String) (advanced_view : Bool) : Bool :=
  (has_expandable_children ⟨d, []⟩ dn advanced_view).1

/-- `ADTreeModel.hasChildren` for a valid index (lines 209-224): fetched
nodes answer from their child count, otherwise the cached
`_has_sub_containers` flag is authoritative, otherwise the backend is
asked directly. -/
def hasChildren (d : Directory) (advanced_view : Bool) (item : ADTreeItem) : Bool :=
  if item.children_fetched then item.children.length > 0
  else
    match item.has_sub_containers with
    | some b => b
    | none => backend_has_children d item.dn advanced_view

/-- `ADTreeModel.canFetchMore` for a valid index (lines 226-232). -/
def canFetchMore (d : Directory) (advanced_view : Bool) (item : ADTreeItem) : Bool :=
  !item.children_fetched && hasChildren d advanced_view item

/-- The child item built in `fetchMore` (lines 249-251): fresh, unfetched,
with `_has_sub_containers` set from the backend's probe. -/
def mk_child_item (cd : TreeChild) : ADTreeItem :=
  .mk (some cd.name) cd.dn cd.objectClass [] false (some cd.has_sub_containers)

/-- `ADTreeModel.fetchMore` for a valid index (lines 234-256): do nothing
when `canFetchMore` is false; otherwise append the fetched children and
mark the node fetched.  No other field of the node, and no pre-existing
child subtree, is touched. -/
def fetchMore (d : Directory) (advanced_view : Bool) (item : ADTreeItem) : ADTreeItem :=
  if canFetchMore d advanced_view item then
    match item with
    | .mk item_data dn oc cs _ hsc =>
      .mk item_data dn oc
        (cs ++ ((get_expandable_children ⟨d, []⟩ dn advanced_view).1.map mk_child_item))
        true hsc
  else item

/-- `ADTreeModel._setup_model` (lines 137-148): a fresh invisible root
whose only child is the forest root (flagged expandable), or an empty root
when the RootDSE query fails. -/
def setup_model (d : Directory) : ADTreeItem :=
  match d.rootInfo with
  | some info =>
    .mk none "" [] [.mk (some info.1) info.2 ["domainDns"] [] false (some true)] false none
  | none => .mk none "" [] [] false none

/-- `ADTreeModel.set_advanced_view` (lines 111-117): store the new flag,
discard the whole tree and rebuild it from a fresh root.  The old tree
state is not consulted. -/
def set_advanced_view (d : Directory) (enabled : Bool) (_old : ADTreeItem × Bool) :
    ADTreeItem × Bool :=
  (setup_model d, enabled)

/-- A DNS SRV answer for `_ldap._tcp.<domain>` as used by `get_ldap_conn`
(the target is modelled after its trailing-dot strip). -/
structure SrvRecord where
  priority : Nat
  weight : Nat
  target : String
deriving Repr, DecidableEq

/-- The sort key of `sorted(answers, key=lambda x: (x.priority, x.weight))`:
ascending lexicographic on the (priority, weight) pair. -/
def srv_le (a b : SrvRecord) : Prop :=
  a.priority < b.priority ∨ (a.priority = b.priority ∧ a.weight ≤ b.weight)

instance : DecidableRel srv_le := fun a b => by unfold srv_le; infer_instance

/-- How `samba_backend.get_ldap_conn` (lines 73-118) leaves its caller:
`raisedNoKerberosTicket` for the `NoKerberosTicketError` raise (line 82),
`returnedNone` for the bare `return None` on a DNS discovery failure
(lines 96 and 99), `connected s` for `return conn, server` on the first
successful bind (line 112), and `returnedNoneNone` for the final
`return None, None` after every candidate failed (line 118). -/
inductive ConnectOutcome where
  | raisedNoKerberosTicket
  | returnedNone
  | connected (server : String)
  | returnedNoneNone
deriving Repr, DecidableEq

/-- Whether the outcome is an exception propagating out of the function
(only the missing-ticket check raises; every failure path after it
returns a value). -/
def raises_exception : ConnectOutcome → Bool
  | .raisedNoKerberosTicket => true
  | _ => false

/-- `samba_backend.get_ldap_conn`: check the Kerberos ticket, resolve the
SRV record (`none` models `NoAnswer`/`NXDOMAIN`/any resolver error), sort
the answers ascending by (priority, weight), and bind to each server in
turn, returning on the first success. -/
def get_ldap_conn (has_ticket : Bool) (srv_answers : Option (List SrvRecord))
    (bind_ok : String → Bool) : ConnectOutcome :=
  if !has_ticket then .raisedNoKerberosTicket
  else
    match srv_answers with
    | none => .returnedNone
    | some answers =>
      let server_list := (answers.insertionSort srv_le).map SrvRecord.target
      match server_list.find? bind_ok with
      | some s => .connected s
      | none => .returnedNoneNone

/-! Concrete stub inputs used by counterexamples and witnesses. -/

/-- A synthetic multi-class row carrying `group`, `user` and `computer`. -/
def multi_class_item : ListedObject :=
  { name := "DC01", dn := "cn=dc01,dc=home,dc=lucasit,dc=com",
    objectClass := ["group", "user", "computer"] }

/-- A stub connection whose `Users` container does have a container child,
so that the short-circuit (and not an empty directory) explains the
`False` answer. -/
def users_conn : LdapConn :=
  ⟨{ single := [("cn=users,dc=home,dc=lucasit,dc=com",
      .ok [("cn=x,cn=users,dc=home,dc=lucasit,dc=com",
            some { objectClass := ["container"], cn := some "x" })])] }, []⟩

/-- A stub directory whose base DN has two children, one of which carries
no naming attribute at all. -/
def nameless_conn : LdapConn :=
  ⟨{ paged := [("dc=x",
      [.page [("cn=a,dc=x", some { objectClass := ["container"], cn := some "a" }),
              ("cn=b,dc=x", some { objectClass := ["container"] })] false])] }, []⟩

/-- Two rows for exercising the list sort. -/
def sort_demo_rows : List ListedObject :=
  [{ name := "beta", dn := "cn=beta,dc=x", objectClass := ["user"] },
   { name := "Alpha", dn := "cn=alpha,dc=x", objectClass := ["user"] }]

/-- Two SRV answers with distinct priorities, listed out of order. -/
def two_servers : List SrvRecord :=
  [⟨10, 0, "dc2.home.lucasit.com"⟩, ⟨0, 5, "dc1.home.lucasit.com"⟩]

/-- A bind stub where only the preferred server accepts the bind. -/
def bind_first_only : String → Bool := fun s => s == "dc1.home.lucasit.com"

/-- A bind stub where every bind fails. -/
def bind_none : String → Bool := fun _ => false

/-- A domain-controller-like row: both `user` and `computer` classes. -/
def demo_dc_row : ListedObject :=
  { name := "dc", dn := "cn=dc,dc=x", objectClass := ["user", "computer"] }

/-- An enabled plain user row (`userAccountControl` 512). -/
def demo_user_row : ListedObject :=
  { name := "u", dn := "cn=u,dc=x", objectClass := ["user"], userAccountControl := some "512" }

/-- A disabled plain user row (`userAccountControl` 514 sets bit 0x2). -/
def demo_disabled_row : ListedObject :=
  { name := "v", dn := "cn=v,dc=x", objectClass := ["user"], userAccountControl := some "514" }

/-- A row with none of the listed classes, falling back to its last label. -/
def demo_contact_row : ListedObject :=
  { name := "k", dn := "cn=k,dc=x", objectClass := ["top", "contact"] }

/-! Helper lemmas shared by the claim theorems. -/

/-- The paging loop only ever appends to its accumulator. -/
theorem get_paged_results_loop_append (responses : List PageResponse) :
    ∀ acc : List SearchEntry,
    get_paged_results_loop responses acc = acc ++ get_paged_results_loop responses [] := by
  induction responses with
  | nil => intro acc; simp [get_paged_results_loop]
  | cons r rest ih =>
    intro acc
    cases r with
    | ldapError => simp [get_paged_results_loop]
    | page rdata cookie =>
      cases cookie with
      | false => simp [get_paged_results_loop]
      | true =>
        simp only [get_paged_results_loop, if_true, List.nil_append]
        rw [ih (acc ++ rdata), ih rdata]
        simp [List.append_assoc]

/-- No backend call ever modifies the stub directory: `search_s` only logs. -/
theorem search_s_dir (c : LdapConn) (dn : String) : (search_s c dn).2.dir = c.dir := rfl

/-- `has_expandable_children` leaves the directory contents untouched. -/
theorem has_expandable_children_dir (c : LdapConn) (dn : String) (adv : Bool) :
    (has_expandable_children c dn adv).2.dir = c.dir := by
  unfold has_expandable_children
  split <;> rfl

/-- The answer of `has_expandable_children` depends only on the directory
contents, not on the query log. -/
theorem has_expandable_children_fst (c1 c2 : LdapConn) (dn : String) (adv : Bool)
    (h : c1.dir = c2.dir) :
    (has_expandable_children c1 dn adv).1 = (has_expandable_children c2 dn adv).1 := by
  unfold has_expandable_children search_s
  rw [h]
  split <;> rfl

/-- Unfolding equation for the children loop on a dict entry. -/
theorem expandable_children_loop_cons_some (adv : Bool) (c : LdapConn)
    (child_dn : String) (e : Entry) (tl : List SearchEntry) :
    expandable_children_loop adv c ((child_dn, some e) :: tl) =
      match e.ou <|> e.dc <|> e.cn with
      | none => expandable_children_loop adv c tl
      | some nm =>
        if is_tree_branch (some e) adv then
          ({ name := nm, dn := child_dn, objectClass := e.objectClass,
             has_sub_containers := (has_expandable_children c child_dn adv).1 } ::
             (expandable_children_loop adv (has_expandable_children c child_dn adv).2 tl).1,
           (expandable_children_loop adv (has_expandable_children c child_dn adv).2 tl).2)
        else expandable_children_loop adv c tl := rfl

/-- Unfolding equation for the children loop on a non-dict entry. -/
theorem expandable_children_loop_cons_none (adv : Bool) (c : LdapConn)
    (child_dn : String) (tl : List SearchEntry) :
    expandable_children_loop adv c ((child_dn, none) :: tl) =
      expandable_children_loop adv c tl := rfl

/-- The children loop leaves the directory contents untouched. -/
theorem expandable_children_loop_dir (adv : Bool) :
    ∀ (l : List SearchEntry) (c : LdapConn),
    (expandable_children_loop adv c l).2.dir = c.dir := by
  intro l
  induction l with
  | nil => intro c; rfl
  | cons hd tl ih =>
    intro c
    obtain ⟨child_dn, entry⟩ := hd
    cases entry with
    | none =>
      rw [expandable_children_loop_cons_none]
      exact ih c
    | some e =>
      rw [expandable_children_loop_cons_some]
      cases hnm : (e.ou <|> e.dc <|> e.cn) with
      | none => exact ih c
      | some nm =>
        cases hb : is_tree_branch (some e) adv with
        | false => exact ih c
        | true =>
          have hrec := ih (has_expandable_children c child_dn adv).2
          rw [has_expandable_children_dir] at hrec
          exact hrec

/-- The children returned by the loop depend only on the directory
contents, not on the query log. -/
theorem expandable_children_loop_fst (adv : Bool) :
    ∀ (l : List SearchEntry) (c1 c2 : LdapConn), c1.dir = c2.dir →
    (expandable_children_loop adv c1 l).1 = (expandable_children_loop adv c2 l).1 := by
  intro l
  induction l with
  | nil => intro c1 c2 _; rfl
  | cons hd tl ih =>
    intro c1 c2 h
    obtain ⟨child_dn, entry⟩ := hd
    cases entry with
    | none =>
      rw [expandable_children_loop_cons_none, expandable_children_loop_cons_none]
      exact ih c1 c2 h
    | some e =>
      rw [expandable_children_loop_cons_some, expandable_children_loop_cons_some]
      cases hnm : (e.ou <|> e.dc <|> e.cn) with
      | none => exact ih c1 c2 h
      | some nm =>
        cases hb : is_tree_branch (some e) adv with
        | false => exact ih c1 c2 h
        | true =>
          have hfst := has_expandable_children_fst c1 c2 child_dn adv h
          have htail := ih (has_expandable_children c1 child_dn adv).2
            (has_expandable_children c2 child_dn adv).2
            (by rw [has_expandable_children_dir, has_expandable_children_dir, h])
          change ({ name := nm, dn := child_dn, objectClass := e.objectClass, has_sub_containers := (has_expandable_children c1 child_dn adv).1 } : TreeChild) :: (expandable_children_loop adv (has_expandable_children c1 child_dn adv).2 tl).1 = ({ name := nm, dn := child_dn, objectClass := e.objectClass, has_sub_containers := (has_expandable_children c2 child_dn adv).1 } : TreeChild) :: (expandable_children_loop adv (has_expandable_children c2 child_dn adv).2 tl).1
          rw [hfst, htail]

/-- `get_expandable_children` leaves the directory contents untouched. -/
theorem get_expandable_children_dir (c : LdapConn) (dn : String) (adv : Bool) :
    (get_expandable_children c dn adv).2.dir = c.dir := by
  unfold get_expandable_children paged_search
  rw [expandable_children_loop_dir]

/-- The result of `get_expandable_children` depends only on the directory
contents, not on the query log. -/
theorem get_expandable_children_fst (c1 c2 : LdapConn) (dn : String) (adv : Bool)
    (h : c1.dir = c2.dir) :
    (get_expandable_children c1 dn adv).1 = (get_expandable_children c2 dn adv).1 := by
  unfold get_expandable_children paged_search
  simp only []
  rw [h]
  exact expandable_children_loop_fst adv _ _ _ (by simp [h])

/-- `get_all_objects_in_dn` leaves the directory contents untouched. -/
theorem get_all_objects_in_dn_dir (c : LdapConn) (dn : String) :
    (get_all_objects_in_dn c dn).2.dir = c.dir := rfl

/-- The result of `get_all_objects_in_dn` depends only on the directory
contents, not on the query log. -/
theorem get_all_objects_in_dn_fst (c1 c2 : LdapConn) (dn : String)
    (h : c1.dir = c2.dir) :
    (get_all_objects_in_dn c1 dn).1 = (get_all_objects_in_dn c2 dn).1 := by
  unfold get_all_objects_in_dn paged_search
  rw [h]

/-! Claim theorems. -/

/-- C3: over a stub directory returning its pages in order, each with a
further cookie except the last, `get_paged_results` returns exactly the
in-order concatenation of all pages, whose length is the sum of the page
sizes.  The loop stops because the stub's last reply carries no cookie. -/
theorem paged_results_concatenation (pages : List (List SearchEntry)) :
    get_paged_results (stub_responses pages) = pages.flatten ∧
    (get_paged_results (stub_responses pages)).length = (pages.map List.length).sum := by
  have h : get_paged_results (stub_responses pages) = pages.flatten := by
    induction pages with
    | nil => rfl
    | cons p rest ih =>
      cases rest with
      | nil => simp [stub_responses, get_paged_results, get_paged_results_loop]
      | cons q rest2 =>
        unfold get_paged_results at ih ⊢
        simp only [stub_responses, get_paged_results_loop, if_true, List.nil_append]
        rw [get_paged_results_loop_append, ih]
        simp
  exact ⟨h, by rw [h]; exact List.length_flatten _⟩

/-- C4: an `ldap.LDAPError` in the middle of the paging loop makes
`get_paged_results` return exactly the pages already received (any replies
the server would have given later are never requested), and
`get_all_objects_in_dn` over such a directory returns the partial
(possibly empty) projection of those pages instead of raising. -/
theorem paged_error_partial_results (pre : List (List SearchEntry))
    (rest : List PageResponse) :
    get_paged_results
        (pre.map (fun p => PageResponse.page p true) ++ .ldapError :: rest) = pre.flatten
    ∧ ∀ (dn : String) (single : List (String × SearchOutcome))
        (rootInfo : Option (String × String)) (log : List String),
      (get_all_objects_in_dn
          ⟨⟨[(dn, pre.map (fun p => PageResponse.page p true) ++ .ldapError :: rest)],
            single, rootInfo⟩, log⟩ dn).1
        = pre.flatten.filterMap (fun r => mk_listed_object r.1 r.2) := by
  have h : ∀ (pre : List (List SearchEntry)),
      get_paged_results
        (pre.map (fun p => PageResponse.page p true) ++ .ldapError :: rest) = pre.flatten := by
    intro pre
    induction pre with
    | nil => rfl
    | cons p tl ih =>
      unfold get_paged_results at ih ⊢
      simp only [List.map_cons, List.cons_append, get_paged_results_loop, if_true,
        List.nil_append, List.append_eq]
      rw [get_paged_results_loop_append, ih]
      simp
  refine ⟨h pre, ?_⟩
  intro dn single rootInfo log
  unfold get_all_objects_in_dn paged_search
  simp only [List.lookup, beq_self_eq_true, if_true, Option.getD_some]
  rw [h pre]

/-- C2: `_is_tree_branch` classifies a directory entry as an expandable
branch exactly when its class-label set meets `TREE_BRANCH_CLASSES` and,
in non-advanced view, its `showInAdvancedViewOnly` value is not "true"
case-insensitively; every other entry is a leaf. -/
theorem tree_branch_classification (e : Entry) (adv : Bool) :
    is_tree_branch (some e) adv = true ↔
      ((∃ oc ∈ e.objectClass, oc ∈ TREE_BRANCH_CLASSES) ∧
       (adv = false → ∀ s, e.showInAdvancedViewOnly = some s → str_lower s ≠ "true")) := by
  unfold is_tree_branch
  by_cases hoc : e.objectClass.isEmpty
  · rw [List.isEmpty_iff] at hoc
    simp [hoc]
  · cases adv with
    | true =>
      simp [hoc, List.any_eq_true, List.contains, List.elem_eq_mem]
    | false =>
      cases hs : e.showInAdvancedViewOnly with
      | none =>
        simp [hoc, hs, List.any_eq_true, List.contains, List.elem_eq_mem]
      | some s =>
        by_cases ht : str_lower s = "true"
        · simp [hoc, hs, ht, List.any_eq_true, List.contains, List.elem_eq_mem]
        · simp [hoc, hs, ht, List.any_eq_true, List.contains, List.elem_eq_mem]

/-- Witness for C2 at a concrete container entry. -/
theorem tree_branch_classification_witness :
    is_tree_branch (some { objectClass := ["top", "container"] }) false = true :=
  (tree_branch_classification { objectClass := ["top", "container"] } false).mpr
    ⟨⟨"container", by decide, by decide⟩, fun _ s hs => nomatch hs⟩

/-- C1 counterexample: an entry whose class list holds `group`, `user` and
`computer` is classified "Security Group", not "Computer", because the
security-group check precedes the computer check; so the claim's clause
"every entry containing both user and computer derives Computer" fails as
stated. -/
theorem kind_user_computer_counterexample :
    "user" ∈ multi_class_item.objectClass ∧ "computer" ∈ multi_class_item.objectClass ∧
    get_object_type multi_class_item ≠ "Computer" ∧
    get_object_type multi_class_item = "Security Group" := by decide

/-- C1 (amended): kind derivation checks the classes in the fixed order
group-policy container, security group, computer, user (split on the
`0x2` account-disabled bit), organizational unit, generic container, and
returns the first match; an entry with both `user` and `computer` but
none of the earlier classes derives "Computer"; with no listed class the
kind is the last class label present. -/
theorem kind_derivation_amended (item : ListedObject) :
    ("groupPolicyContainer" ∈ item.objectClass →
       get_object_type item = "Group Policy Object")
  ∧ ("group" ∈ item.objectClass → "groupPolicyContainer" ∉ item.objectClass →
       get_object_type item = "Security Group")
  ∧ ("computer" ∈ item.objectClass → "groupPolicyContainer" ∉ item.objectClass →
       "group" ∉ item.objectClass → get_object_type item = "Computer")
  ∧ ("user" ∈ item.objectClass → "groupPolicyContainer" ∉ item.objectClass →
       "group" ∉ item.objectClass → "computer" ∉ item.objectClass →
       get_object_type item =
         (if uac_value item &&& UAC_ACCOUNT_DISABLED ≠ 0 then "Disabled User" else "User"))
  ∧ ("organizationalUnit" ∈ item.objectClass → "groupPolicyContainer" ∉ item.objectClass →
       "group" ∉ item.objectClass → "computer" ∉ item.objectClass →
       "user" ∉ item.objectClass → get_object_type item = "Organizational Unit")
  ∧ ("container" ∈ item.objectClass → "groupPolicyContainer" ∉ item.objectClass →
       "group" ∉ item.objectClass → "computer" ∉ item.objectClass →
       "user" ∉ item.objectClass → "organizationalUnit" ∉ item.objectClass →
       get_object_type item = "Container")
  ∧ (item.objectClass ≠ [] → "groupPolicyContainer" ∉ item.objectClass →
       "group" ∉ item.objectClass → "computer" ∉ item.objectClass →
       "user" ∉ item.objectClass → "organizationalUnit" ∉ item.objectClass →
       "container" ∉ item.objectClass →
       item.objectClass.getLast? = some (get_object_type item)) := by
  refine ⟨?_, ?_, ?_, ?_, ?_, ?_, ?_⟩
  · intro h1
    have hne : item.objectClass ≠ [] := List.ne_nil_of_mem h1
    simp [get_object_type, h1, hne]
  · intro h1 h2
    have hne : item.objectClass ≠ [] := List.ne_nil_of_mem h1
    simp [get_object_type, h1, h2, hne]
  · intro h1 h2 h3
    have hne : item.objectClass ≠ [] := List.ne_nil_of_mem h1
    simp [get_object_type, h1, h2, h3, hne]
  · intro h1 h2 h3 h4
    have hne : item.objectClass ≠ [] := List.ne_nil_of_mem h1
    simp [get_object_type, h1, h2, h3, h4, hne]
  · intro h1 h2 h3 h4 h5
    have hne : item.objectClass ≠ [] := List.ne_nil_of_mem h1
    simp [get_object_type, h1, h2, h3, h4, h5, hne]
  · intro h1 h2 h3 h4 h5 h6
    have hne : item.objectClass ≠ [] := List.ne_nil_of_mem h1
    simp [get_object_type, h1, h2, h3, h4, h5, h6, hne]
  · intro h0 h1 h2 h3 h4 h5 h6
    have hlast : item.objectClass.getLastD "Unknown"
        = (item.objectClass.getLast? ).getD "Unknown" := by
      cases item.objectClass with
      | nil => rfl
      | cons a l => simp [List.getLastD_eq_getLast?]
    obtain ⟨last, hl⟩ := Option.isSome_iff_exists.mp
      (by rw [List.getLast?_isSome]; exact h0)
    simp [get_object_type, h0, h1, h2, h3, h4, h5, h6, hlast, hl]

/-- Witness for C1 at concrete rows: a domain-controller-like row
(`user` + `computer`), an enabled and a disabled plain user, and a
classless-but-nonempty row falling back to its last label. -/
theorem kind_derivation_amended_witness :
    get_object_type demo_dc_row = "Computer"
  ∧ get_object_type demo_user_row = "User"
  ∧ get_object_type demo_disabled_row = "Disabled User"
  ∧ List.getLast? ["top", "contact"] = some (get_object_type demo_contact_row) := by
  refine ⟨?_, ?_, ?_, ?_⟩
  · exact (kind_derivation_amended demo_dc_row).2.2.1 (by decide) (by decide) (by decide)
  · have := (kind_derivation_amended demo_user_row).2.2.2.1
      (by decide) (by decide) (by decide) (by decide)
    rw [this]
    decide
  · have := (kind_derivation_amended demo_disabled_row).2.2.2.1
      (by decide) (by decide) (by decide) (by decide)
    rw [this]
    decide
  · exact (kind_derivation_amended demo_contact_row).2.2.2.2.2.2 (by decide) (by decide)
      (by decide) (by decide) (by decide) (by decide) (by decide)

/-- C5: in non-advanced view, a DN from the well-known
`NON_EXPANDABLE_CONTAINERS` set (matched case-insensitively) is answered
`False` with the connection returned untouched: no search is issued, so
the stub's query log is unchanged. -/
theorem non_expandable_short_circuit (c : LdapConn) (dn : String)
    (h : str_lower dn ∈ NON_EXPANDABLE_CONTAINERS) :
    has_expandable_children c dn false = (false, c) ∧
    (has_expandable_children c dn false).2.log = c.log := by
  have hcond : (!false && NON_EXPANDABLE_CONTAINERS.contains (str_lower dn)) = true := by
    simp [List.contains, List.elem_eq_mem, h]
  have h1 : has_expandable_children c dn false = (false, c) := by
    unfold has_expandable_children
    rw [if_pos hcond]
  exact ⟨h1, by rw [h1]⟩

/-- Witness for C5: the built-in Users container, queried through a stub
that does contain a container child, still answers `False` without a
query. -/
theorem non_expandable_short_circuit_witness :
    has_expandable_children users_conn "CN=Users,DC=home,DC=lucasit,DC=com" false
      = (false, users_conn) :=
  (non_expandable_short_circuit users_conn "CN=Users,DC=home,DC=lucasit,DC=com"
    (by decide)).1

/-- C6: fetching children is a once-only transition: after `fetchMore`,
`canFetchMore` answers `False` (so a second fetch is impossible without
discarding the node) and `fetchMore` is idempotent; `fetchMore` never
changes the node's resolved `_has_sub_containers` flag nor any
pre-existing child subtree; and `set_advanced_view` rebuilds the tree
from a fresh root, ignoring the old tree state entirely — the only way a
resolved flag ever goes away. -/
theorem tree_fetch_once_and_flag_stable (d : Directory) (adv : Bool) (item : ADTreeItem) :
    canFetchMore d adv (fetchMore d adv item) = false
  ∧ fetchMore d adv (fetchMore d adv item) = fetchMore d adv item
  ∧ (fetchMore d adv item).has_sub_containers = item.has_sub_containers
  ∧ (fetchMore d adv item).children.take item.children.length = item.children
  ∧ ∀ (enabled : Bool) (s1 s2 : ADTreeItem × Bool),
      set_advanced_view d enabled s1 = set_advanced_view d enabled s2 := by
  cases item with
  | mk idata dn oc cs f hsc =>
    by_cases hc : canFetchMore d adv (ADTreeItem.mk idata dn oc cs f hsc) = true
    · have hpos : fetchMore d adv (ADTreeItem.mk idata dn oc cs f hsc)
          = ADTreeItem.mk idata dn oc
              (cs ++ ((get_expandable_children ⟨d, []⟩ dn adv).1.map mk_child_item))
              true hsc := by
        unfold fetchMore
        rw [if_pos hc]
      have hcf : canFetchMore d adv
          (ADTreeItem.mk idata dn oc
            (cs ++ ((get_expandable_children ⟨d, []⟩ dn adv).1.map mk_child_item))
            true hsc) = false := by
        simp [canFetchMore, ADTreeItem.children_fetched]
      refine ⟨?_, ?_, ?_, ?_, fun _ _ _ => rfl⟩
      · rw [hpos]
        exact hcf
      · rw [hpos]
        unfold fetchMore
        rw [if_neg (by rw [hcf]; simp)]
      · rw [hpos]
        rfl
      · rw [hpos]
        show (cs ++ _).take cs.length = cs
        exact List.take_left cs _
    · have hneg2 : fetchMore d adv (ADTreeItem.mk idata dn oc cs f hsc)
          = ADTreeItem.mk idata dn oc cs f hsc := by
        unfold fetchMore
        rw [if_neg hc]
      refine ⟨?_, ?_, ?_, ?_, fun _ _ _ => rfl⟩
      · rw [hneg2]
        simpa using hc
      · rw [hneg2, hneg2]
      · rw [hneg2]
      · rw [hneg2]
        exact List.take_length _

/-- C10: a child entry with no naming attribute is silently dropped: the
lister skips any dict entry lacking all of `displayName`, `ou`, `dc`,
`cn`, and the tree-children loop skips any branch entry lacking all of
`ou`, `dc`, `cn`; over a concrete stub with two children, one nameless,
the returned list is strictly shorter than the child list although no
error occurred. -/
theorem nameless_children_omitted :
    (∀ (child_dn : String) (e : Entry),
       e.displayName = none → e.ou = none → e.dc = none → e.cn = none →
       mk_listed_object child_dn (some e) = none)
  ∧ (∀ (adv : Bool) (c : LdapConn) (child_dn : String) (e : Entry)
       (tl : List SearchEntry),
       e.ou = none → e.dc = none → e.cn = none →
       expandable_children_loop adv c ((child_dn, some e) :: tl)
         = expandable_children_loop adv c tl)
  ∧ (get_all_objects_in_dn nameless_conn "dc=x").1.length = 1
  ∧ (get_paged_results ((nameless_conn.dir.paged.lookup "dc=x").getD [])).length = 2 := by
  refine ⟨?_, ?_, by decide, by decide⟩
  · intro child_dn e h1 h2 h3 h4
    simp [mk_listed_object, h1, h2, h3, h4]
  · intro adv c child_dn e tl h2 h3 h4
    rw [expandable_children_loop_cons_some]
    simp [h2, h3, h4]

/-- Witness for C10: the nameless child of the concrete stub is omitted
by both the lister projection and the tree-children loop. -/
theorem nameless_children_omitted_witness :
    mk_listed_object "cn=b,dc=x" (some { objectClass := ["container"] }) = none
  ∧ expandable_children_loop false ⟨{}, []⟩
      [("cn=b,dc=x", some { objectClass := ["container"] })]
      = expandable_children_loop false ⟨{}, []⟩ [] :=
  ⟨nameless_children_omitted.1 "cn=b,dc=x" { objectClass := ["container"] } rfl rfl rfl rfl,
   nameless_children_omitted.2.1 false ⟨{}, []⟩ "cn=b,dc=x" { objectClass := ["container"] }
     [] rfl rfl rfl⟩

/-- C8: against an unchanged directory, `get_expandable_children` and
`get_all_objects_in_dn` are idempotent — a second call with the same DN
and view flag, issued on the connection state left by the first call,
returns the same list.  The only state either call touches is the query
log; neither keeps a cache nor modifies the directory. -/
theorem children_and_lister_idempotent (c : LdapConn) (dn : String) (adv : Bool) :
    (get_expandable_children ((get_expandable_children c dn adv).2) dn adv).1
      = (get_expandable_children c dn adv).1
  ∧ (get_all_objects_in_dn ((get_all_objects_in_dn c dn).2) dn).1
      = (get_all_objects_in_dn c dn).1 :=
  ⟨get_expandable_children_fst _ _ dn adv (get_expandable_children_dir c dn adv),
   get_all_objects_in_dn_fst _ _ dn (get_all_objects_in_dn_dir c dn)⟩

/-- Reflexivity of the code-point order. -/
theorem codes_le_refl : ∀ a : List Nat, codes_le a a = true
  | [] => rfl
  | x :: xs => by simp [codes_le, codes_le_refl xs]

/-- Totality of the code-point order. -/
theorem codes_le_total : ∀ a b : List Nat, codes_le a b = true ∨ codes_le b a = true
  | [], _ => Or.inl rfl
  | _ :: _, [] => Or.inr rfl
  | a :: as, b :: bs => by
    rcases Nat.lt_trichotomy a b with h | h | h
    · left
      simp [codes_le, h]
    · subst h
      rcases codes_le_total as bs with h2 | h2
      · left
        simp [codes_le, h2]
      · right
        simp [codes_le, h2]
    · right
      simp [codes_le, h]

/-- Transitivity of the code-point order. -/
theorem codes_le_trans : ∀ {a b c : List Nat},
    codes_le a b = true → codes_le b c = true → codes_le a c = true
  | [], _, _, _, _ => rfl
  | _ :: _, [], _, h, _ => by simp [codes_le] at h
  | _ :: _, _ :: _, [], _, h2 => by simp [codes_le] at h2
  | a :: as, b :: bs, c :: cs, h1, h2 => by
    simp only [codes_le, Bool.or_eq_true, Bool.and_eq_true, decide_eq_true_eq,
      beq_iff_eq] at h1 h2 ⊢
    rcases h1 with h1 | ⟨hab, h1⟩
    · rcases h2 with h2 | ⟨hbc, h2⟩
      · left
        omega
      · left
        omega
    · rcases h2 with h2 | ⟨hbc, h2⟩
      · left
        omega
      · right
        exact ⟨by omega, codes_le_trans h1 h2⟩

/-- Reflexivity of the Python string order. -/
theorem str_le_refl (a : String) : str_le a a = true := codes_le_refl _

/-- Totality of the Python string order. -/
theorem str_le_total (a b : String) : str_le a b = true ∨ str_le b a = true :=
  codes_le_total _ _

/-- Transitivity of the Python string order. -/
theorem str_le_trans {a b c : String} :
    str_le a b = true → str_le b c = true → str_le a c = true := codes_le_trans

/-- `find?` returns the element after a prefix of failures. -/
theorem find_first_success (f : String → Bool) :
    ∀ (pre : List String) (s : String) (suf : List String),
    (∀ x ∈ pre, f x = false) → f s = true →
    List.find? f (pre ++ s :: suf) = some s := by
  intro pre
  induction pre with
  | nil =>
    intro s suf _ hs
    simpa using List.find?_cons_of_pos _ hs
  | cons a tl ih =>
    intro s suf hpre hs
    rw [List.cons_append, List.find?_cons_of_neg]
    · exact ih s suf (fun x hx => hpre x (List.mem_cons_of_mem a hx)) hs
    · simp [hpre a (List.mem_cons_self a tl)]

/-- C7 counterexample: with a valid ticket and a candidate whose bind
fails, `get_ldap_conn` returns the tuple `(None, None)` — and with failed
discovery it returns a bare `None` — instead of failing with a
`ConnectionError`; no exception leaves the function on either path (only
the missing-ticket check raises, and that raises `NoKerberosTicketError`). -/
theorem connect_error_counterexample :
    get_ldap_conn true (some two_servers) bind_none = .returnedNoneNone
  ∧ raises_exception ConnectOutcome.returnedNoneNone = false
  ∧ get_ldap_conn true none bind_none = .returnedNone
  ∧ raises_exception ConnectOutcome.returnedNone = false := by decide

/-- C7 (amended): `get_ldap_conn` tries the discovered servers in
ascending (priority, weight) order and returns the first one whose bind
succeeds; when discovery fails it returns `None`, and when every
candidate's bind fails it returns `(None, None)` — it does not raise a
`ConnectionError` (a missing Kerberos ticket raises
`NoKerberosTicketError` before discovery). -/
theorem connect_first_success_amended (answers : List SrvRecord) (bind_ok : String → Bool) :
    List.Sorted srv_le (answers.insertionSort srv_le)
  ∧ (answers.insertionSort srv_le).Perm answers
  ∧ (∀ (pre : List String) (s : String) (suf : List String),
       (answers.insertionSort srv_le).map SrvRecord.target = pre ++ s :: suf →
       (∀ x ∈ pre, bind_ok x = false) → bind_ok s = true →
       get_ldap_conn true (some answers) bind_ok = .connected s)
  ∧ ((∀ r ∈ answers, bind_ok r.target = false) →
       get_ldap_conn true (some answers) bind_ok = .returnedNoneNone)
  ∧ get_ldap_conn true none bind_ok = .returnedNone
  ∧ (∀ srv_answers, get_ldap_conn false srv_answers bind_ok = .raisedNoKerberosTicket) := by
  haveI htot : IsTotal SrvRecord srv_le :=
    ⟨by intro a b; unfold srv_le; omega⟩
  haveI htr : IsTrans SrvRecord srv_le :=
    ⟨by intro a b c h1 h2; unfold srv_le at h1 h2 ⊢; omega⟩
  refine ⟨List.sorted_insertionSort srv_le answers,
    List.perm_insertionSort srv_le answers, ?_, ?_, rfl, fun _ => rfl⟩
  · intro pre s suf hsplit hpre hs
    have h : List.find? bind_ok ((answers.insertionSort srv_le).map SrvRecord.target)
        = some s := by
      rw [hsplit]
      exact find_first_success bind_ok pre s suf hpre hs
    simp [get_ldap_conn, h]
  · intro hall
    have h : List.find? bind_ok ((answers.insertionSort srv_le).map SrvRecord.target)
        = none := by
      rw [List.find?_eq_none]
      intro x hx
      rw [List.mem_map] at hx
      obtain ⟨r, hr, rfl⟩ := hx
      rw [List.mem_insertionSort] at hr
      simp [hall r hr]
    simp [get_ldap_conn, h]

/-- Witness for C7: the lower-priority server answers first even though it
is listed second, and an all-fail bind yields the `(None, None)` return. -/
theorem connect_first_success_amended_witness :
    get_ldap_conn true (some two_servers) bind_first_only
      = .connected "dc1.home.lucasit.com"
  ∧ get_ldap_conn true (some two_servers) bind_none = .returnedNoneNone := by
  constructor
  · exact (connect_first_success_amended two_servers bind_first_only).2.2.1
      [] "dc1.home.lucasit.com" ["dc2.home.lucasit.com"] (by decide) (by decide) (by decide)
  · exact (connect_first_success_amended two_servers bind_none).2.2.2.1 (by decide)

/-- C9: `setData` installs the backend's rows in their given order with no
implicit sort; `sort` with a column index outside 0-2 leaves the rows
unchanged; and `sort` on columns 0-2 permutes the rows into an order
sorted by the lower-cased column key, stably — rows with equal keys keep
their original relative order (their filtered subsequence is unchanged). -/
theorem list_sort_contract (data : List ListedObject) (column : Nat) (descending : Bool) :
    set_data_rows (some data) = data
  ∧ set_data_rows none = []
  ∧ (2 < column → sort_rows data column descending = data)
  ∧ (column ≤ 2 →
      (sort_rows data column descending).Perm data
      ∧ List.Sorted (list_sort_le column descending) (sort_rows data column descending)
      ∧ ∀ k : String,
          (sort_rows data column descending).filter (fun it => sort_key column it == k)
            = data.filter (fun it => sort_key column it == k)) := by
  refine ⟨rfl, rfl, ?_, ?_⟩
  · intro hcol
    unfold sort_rows
    rw [if_neg (by omega)]
  · intro hcol
    have hsr : sort_rows data column descending
        = data.insertionSort (list_sort_le column descending) := by
      unfold sort_rows
      rw [if_pos hcol]
    haveI htot : IsTotal ListedObject (list_sort_le column descending) := by
      constructor
      intro a b
      unfold list_sort_le
      cases descending
      · simpa using str_le_total (sort_key column a) (sort_key column b)
      · simpa using str_le_total (sort_key column b) (sort_key column a)
    haveI htr : IsTrans ListedObject (list_sort_le column descending) := by
      constructor
      intro a b c h1 h2
      unfold list_sort_le at h1 h2 ⊢
      cases descending
      · simp only [if_neg Bool.false_ne_true] at h1 h2 ⊢
        exact str_le_trans h1 h2
      · simp only [if_pos rfl] at h1 h2 ⊢
        exact str_le_trans h2 h1
    refine ⟨?_, ?_, ?_⟩
    · rw [hsr]
      exact List.perm_insertionSort _ data
    · rw [hsr]
      exact List.sorted_insertionSort _ data
    · intro k
      rw [hsr]
      have hpair : (data.filter (fun it => sort_key column it == k)).Pairwise
          (list_sort_le column descending) := by
        apply List.pairwise_of_forall_mem_list
        intro a ha b hb
        have hka : sort_key column a = k := by
          simpa using (List.mem_filter.mp ha).2
        have hkb : sort_key column b = k := by
          simpa using (List.mem_filter.mp hb).2
        unfold list_sort_le
        cases descending <;> simp [hka, hkb, str_le_refl]
      have hsub : List.Sublist (data.filter (fun it => sort_key column it == k))
          (data.insertionSort (list_sort_le column descending)) :=
        List.sublist_insertionSort hpair (List.filter_sublist data)
      have hid : (data.filter (fun it => sort_key column it == k)).filter
          (fun it => sort_key column it == k)
          = data.filter (fun it => sort_key column it == k) :=
        List.filter_eq_self.mpr (fun a ha => (List.mem_filter.mp ha).2)
      have hsub2 : List.Sublist (data.filter (fun it => sort_key column it == k))
          ((data.insertionSort (list_sort_le column descending)).filter
            (fun it => sort_key column it == k)) := by
        have hstep := List.Sublist.filter (fun it => sort_key column it == k) hsub
        rwa [hid] at hstep
      have hperm : List.Perm
          ((data.insertionSort (list_sort_le column descending)).filter
            (fun it => sort_key column it == k))
          (data.filter (fun it => sort_key column it == k)) :=
        (List.perm_insertionSort _ data).filter _
      exact (List.Sublist.eq_of_length hsub2 (by rw [hperm.length_eq])).symm

/-- Witness for C9: sorting two rows by name ascending is a sorted
permutation keeping equal-key order, and an out-of-range column request
returns the rows untouched. -/
theorem list_sort_contract_witness :
    (sort_rows sort_demo_rows 0 false).Perm sort_demo_rows
  ∧ List.Sorted (list_sort_le 0 false) (sort_rows sort_demo_rows 0 false)
  ∧ (sort_rows sort_demo_rows 0 false).filter (fun it => sort_key 0 it == "alpha")
      = sort_demo_rows.filter (fun it => sort_key 0 it == "alpha")
  ∧ sort_rows sort_demo_rows 5 true = sort_demo_rows :=
  ⟨((list_sort_contract sort_demo_rows 0 false).2.2.2 (by decide)).1,
   ((list_sort_contract sort_demo_rows 0 false).2.2.2 (by decide)).2.1,
   ((list_sort_contract sort_demo_rows 0 false).2.2.2 (by decide)).2.2 "alpha",
   (list_sort_contract sort_demo_rows 5 true).2.2.1 (by decide)⟩

end Saduc
